import Mathlib

/-!
Shallow embedding of the foodiefind video-to-recommendation processing
pipeline: duration filtering, transcript acquisition with fallback,
AI-output validation, timestamp reconciliation, and the per-video
processing orchestrator, together with theorems settling the spec claims.
External collaborators (YouTube caption fetch, RapidAPI, the language
model, the relational store) are modelled as explicit oracle inputs and
an explicit database state.
-/

namespace FoodieFind

/-- Initial-segment test over char lists: listIsPre pat s is true iff
pat is an initial segment of s. -/
def listIsPre : List Char → List Char → Bool
  | [], _ => true
  | _ :: _, [] => false
  | a :: as, b :: bs => a = b && listIsPre as bs

/-- hasSub s pat: pat occurs as a contiguous run inside s
(JavaScript String.prototype.includes over the char sequence). -/
def hasSub : List Char → List Char → Bool
  | [], pat => pat.isEmpty
  | c :: rest, pat => listIsPre pat (c :: rest) || hasSub rest pat

/-- JavaScript haystack.includes(needle) on strings. -/
def strContainsSub (s pat : String) : Bool :=
  hasSub s.toList pat.toList

/-- ASCII lowercasing, as JavaScript toLowerCase on the latin range. -/
def lowerStr (s : String) : String :=
  ⟨s.toList.map Char.toLower⟩

/-- Whitespace test used by trimming. -/
def isWS (c : Char) : Bool :=
  c = ' ' || c = '\t' || c = '\n' || c = '\r'

/-- JavaScript String.prototype.trim: strip leading and trailing
whitespace. -/
def trimStr (s : String) : String :=
  ⟨((s.toList.dropWhile isWS).reverse.dropWhile isWS).reverse⟩

/-- Split a char list at every space character, JS split(' ')
semantics: the empty list yields one empty field, and adjacent spaces
yield empty fields. -/
def splitChars : List Char → List (List Char)
  | [] => [[]]
  | c :: rest =>
    let r := splitChars rest
    if c = ' ' then [] :: r
    else
      match r with
      | h :: t => (c :: h) :: t
      | [] => [[c]]

/-- JavaScript s.split(' '). -/
def splitOnSpace (s : String) : List String :=
  (splitChars s.toList).map (fun l => ⟨l⟩)

/-- Maximal leading digit run of a char list, with the remainder. -/
def digitsRun : List Char → List Char × List Char
  | [] => ([], [])
  | c :: cs =>
    if c.isDigit then
      let p := digitsRun cs
      (c :: p.1, p.2)
    else ([], c :: cs)

/-- Digits to a natural number (the parseInt of a pure digit run). -/
def digitsToNat (l : List Char) : Nat :=
  l.foldl (fun a c => a * 10 + (c.toNat - 48)) 0

/-- One optional regex group (?:(\d+)U)? at the current position:
consume a nonempty digit run followed by the unit letter, else consume
nothing and contribute 0 (parseInt(undefined) || 0). -/
def groupNum (cs : List Char) (unit : Char) : Nat × List Char :=
  let p := digitsRun cs
  match p.2 with
  | u :: rest => if p.1 ≠ [] ∧ u = unit then (digitsToNat p.1, rest) else (0, cs)
  | [] => (0, cs)

/-- Chars after the first occurrence of the literal "PT", if any
(the regex PT(?:(\d+)H)?(?:(\d+)M)?(?:(\d+)S)? matches at the first
"PT" since every group is optional). -/
def findPT : List Char → Option (List Char)
  | [] => none
  | 'P' :: 'T' :: rest => some rest
  | _ :: rest => findPT rest

/-- youtubeService.parseDuration: ISO-8601-style YouTube duration string
to seconds; falsy or non-matching input yields 0. -/
def parseDuration (d : String) : Nat :=
  if d = "" then 0
  else
    match findPT d.toList with
    | none => 0
    | some rest =>
      let h := groupNum rest 'H'
      let m := groupNum h.2 'M'
      let s := groupNum m.2 'S'
      h.1 * 3600 + m.1 * 60 + s.1

/-- The duration and title fields of a video object as consumed by
isVideoSuitableForProcessing. -/
structure VideoMeta where
  duration : String
  title : String

/-- The fixed denylist of non-food signal keywords. -/
def nonFoodKeywords : List String :=
  ["music", "live stream", "shorts", "compilation", "trailer", "announcement"]

/-- youtubeService.isVideoSuitableForProcessing: rejects parsed duration
at most 60s, rejects duration under 120s, rejects titles containing a
denylisted keyword (lowercased substring match), accepts otherwise. -/
def isVideoSuitableForProcessing (v : VideoMeta) : Bool :=
  let durationSeconds := parseDuration v.duration
  let title := lowerStr v.title
  if durationSeconds ≤ 60 then false
  else if durationSeconds < 120 then false
  else if nonFoodKeywords.any (fun k => strContainsSub title k) then false
  else true

/-- A caption entry returned by the primary captioning source
(YoutubeTranscript.fetchTranscript): text plus offset in milliseconds. -/
structure CapEntry where
  text : String
  offset : Nat

/-- The transcript field of a RapidAPI response body, after the JS
truthiness test on response.data.transcript: missing, null or the empty
string collapse to none; otherwise either a segment array (each segment
already reduced to its text) or a plain string. -/
structure RapidResp where
  transcript : Option (Sum (List String) String)

/-- youtubeService.getRapidApiTranscript: on an HTTP-level failure the
error propagates reworded; on success an array transcript is joined
with spaces, a string transcript is returned as-is, and an absent or
falsy transcript field raises a no-data error. -/
def getRapidApiTranscript (resp : Except String RapidResp) : Except String String :=
  match resp with
  | .error e => .error ("RapidAPI request failed: " ++ e)
  | .ok r =>
    match r.transcript with
    | some (.inl entries) => .ok (String.intercalate " " entries)
    | some (.inr s) => .ok s
    | none => .error "No transcript data in RapidAPI response"

/-- youtubeService.getVideoTranscript: try the primary caption track,
require trimmed length strictly above 50 to accept; otherwise fall back
to the RapidAPI provider, whose successful result is returned directly;
if both fail, a combined error names both reasons. -/
def getVideoTranscript (primary : Except String (List CapEntry))
    (fallback : Except String RapidResp) : Except String String :=
  let fb (e1 : String) : Except String String :=
    match getRapidApiTranscript fallback with
    | .ok t => .ok t
    | .error e2 =>
      .error ("Failed to fetch video transcript from both sources: YouTube ("
        ++ e1 ++ ") and RapidAPI (" ++ e2 ++ ")")
  match primary with
  | .ok arr =>
    let transcript := String.intercalate " " (arr.map (fun e => e.text))
    if (trimStr transcript).length > 50 then .ok transcript
    else fb "YouTube transcript too short"
  | .error e => fb e

/-- A validated recommendation candidate, the element shape produced by
aiService.validateAndFormatRecommendations and consumed by the
timestamp service and the orchestrator. -/
structure Candidate where
  name : String
  location : Option String
  address : Option String
  cuisineType : Option String
  dishMentioned : Option String
  context : Option String
  confidenceScore : ℚ
  priceRange : Option String
  mentionedAt : Option Nat
deriving DecidableEq

/-- A raw restaurant object as parsed from the model completion, before
validation. A none field is a missing or null JSON field; a some ""
string field is present but empty (falsy in JS). -/
structure RawRestaurant where
  name : Option String
  location : Option String
  address : Option String
  cuisineType : Option String
  dishMentioned : Option String
  context : Option String
  confidenceScore : Option ℚ
  priceRange : Option String
  mentionedAt : Option Nat

/-- JS field || null on a string field: empty string collapses to null. -/
def jsOrNullStr (o : Option String) : Option String :=
  match o with
  | some s => if s = "" then none else some s
  | none => none

/-- JS field || null on a numeric field: zero collapses to null. -/
def jsOrNullNat (o : Option Nat) : Option Nat :=
  match o with
  | some n => if n = 0 then none else some n
  | none => none

/-- aiService.validatePriceRange: keep one of the four canonical tokens,
null anything else. -/
def validatePriceRange (p : Option String) : Option String :=
  match p with
  | some s => if s = "$" ∨ s = "$$" ∨ s = "$$$" ∨ s = "$$$$" then some s else none
  | none => none

/-- The filter step of validateAndFormatRecommendations: the name must
be truthy with nonempty trim, and the confidence test is
confidenceScore >= 0.6 || !confidenceScore, where a missing, null or
zero confidence is falsy and passes. -/
def keepRestaurant (r : RawRestaurant) : Bool :=
  match r.name with
  | some n =>
    n ≠ "" && trimStr n ≠ "" &&
      (match r.confidenceScore with
       | some q => decide ((6 : ℚ)/10 ≤ q) || decide (q = 0)
       | none => true)
  | none => false

/-- The map step of validateAndFormatRecommendations: trim the name,
null falsy optional fields, default a falsy confidence to 0.8,
normalize the price range, and null a falsy mentionedAt. -/
def formatRestaurant (r : RawRestaurant) : Candidate :=
  { name := trimStr (r.name.getD "")
    location := jsOrNullStr r.location
    address := jsOrNullStr r.address
    cuisineType := jsOrNullStr r.cuisineType
    dishMentioned := jsOrNullStr r.dishMentioned
    context := jsOrNullStr r.context
    confidenceScore :=
      match r.confidenceScore with
      | some q => if q = 0 then (8 : ℚ)/10 else q
      | none => (8 : ℚ)/10
    priceRange := validatePriceRange r.priceRange
    mentionedAt := jsOrNullNat r.mentionedAt }

/-- aiService.validateAndFormatRecommendations: a missing or non-array
restaurants field yields the empty list, otherwise filter then map. -/
def validateAndFormatRecommendations (recs : Option (List RawRestaurant)) :
    List Candidate :=
  match recs with
  | none => []
  | some rs => (rs.filter keepRestaurant).map formatRestaurant

/-- A timestamped transcript entry (text plus offset in milliseconds)
as consumed by timestampService.findRestaurantTimestamp. -/
structure TEntry where
  text : String
  offset : Nat
deriving DecidableEq, Inhabited

/-- The search-term list of findRestaurantTimestamp: the lowercased
full name, its split-on-space tokens, and the words of the context
quote longer than 3 characters, with every term of length at most 2
filtered out. -/
def searchTerms (name : String) (ctx : Option String) : List String :=
  (lowerStr name ::
    (splitOnSpace (lowerStr name) ++
      ((splitOnSpace (lowerStr (ctx.getD ""))).filter (fun w => w.length > 3)))).filter
    (fun t => t.length > 2)

/-- The concatenated lowercased text of the window of entries from
index i-2 through i+2 (clipped at the ends), joined with spaces. -/
def windowText (texts : List String) (i : Nat) : String :=
  String.intercalate " " ((texts.drop (i - 2)).take (i + 3 - (i - 2)))

/-- Per-term score contribution: 1 for an occurrence, plus a bonus 2
when the occurring term is the lowercased full restaurant name. -/
def termWeight (name term : String) : Nat :=
  if term = lowerStr name then 3 else 1

/-- The score of position i: the sum, over the search-term list, of
each term's weight when it occurs as a substring of the window text. -/
def windowScore (texts : List String) (name : String) (ctx : Option String)
    (i : Nat) : Nat :=
  ((searchTerms name ctx).map
    (fun t => if strContainsSub (windowText texts i) t then termWeight name t else 0)).sum

/-- One iteration of the best-match scan: a strictly better score at
index i replaces the best score and best timestamp. -/
def bestStep (f ts : Nat → Nat) (acc : Nat × Option Nat) (i : Nat) :
    Nat × Option Nat :=
  if acc.1 < f i then (f i, some (ts i)) else acc

/-- timestampService.findRestaurantTimestamp: walk every entry index,
keep the first strictly-best window score together with that entry's
offset in whole seconds, and return it only when the best score
reaches 2. -/
def findRestaurantTimestamp (arr : List TEntry) (name : String)
    (ctx : Option String) : Option Nat :=
  if arr.length = 0 then none
  else
    let texts := arr.map (fun e => lowerStr e.text)
    let r := (List.range arr.length).foldl
      (bestStep (windowScore texts name ctx)
        (fun i => (arr.getD i default).offset / 1000)) (0, none)
    if 2 ≤ r.1 then r.2 else none

/-- timestampService.getTranscriptWithTimestamps: a fetch failure is
caught and becomes the empty transcript. -/
def getTranscriptWithTimestamps (fetch : Except String (List TEntry)) :
    List TEntry :=
  match fetch with
  | .ok arr => arr
  | .error _ => []

/-- timestampService.enhanceRecommendationsWithTimestamps: with an
empty or unavailable timestamped transcript the candidates come back
unchanged; otherwise every candidate's mentionedAt is rewritten with
its own match result. -/
def enhanceRecommendationsWithTimestamps (fetch : Except String (List TEntry))
    (recs : List Candidate) : List Candidate :=
  let arr := getTranscriptWithTimestamps fetch
  if arr.length = 0 then recs
  else recs.map (fun r =>
    { r with mentionedAt := findRestaurantTimestamp arr r.name r.context })

/-- The weighted search-term list as the claim words it: the full
restaurant name at weight 2, each whitespace token of the name at
weight 1, and each context word longer than 3 characters at weight 1
(no further filtering). Written from the claim, for comparison with
the source-derived searchTerms. -/
def claimSearchTerms (name : String) (ctx : Option String) : List (String × Nat) :=
  (lowerStr name, 2) ::
    ((splitOnSpace (lowerStr name)).map (fun t => (t, 1)) ++
      ((splitOnSpace (lowerStr (ctx.getD ""))).filter (fun w => w.length > 3)).map
        (fun t => (t, 1)))

/-- Position score as the claim words it: sum of the weights of every
term occurring as a substring of the window text. Written from the
claim, for comparison with the source-derived windowScore. -/
def claimWindowScore (texts : List String) (name : String) (ctx : Option String)
    (i : Nat) : Nat :=
  ((claimSearchTerms name ctx).map
    (fun t => if strContainsSub (windowText texts i) t.1 then t.2 else 0)).sum

/-- The reconciler as the claim words it: best-scoring position's entry
offset in whole seconds, filled only when the best score is at least 2.
Written from the claim, for comparison with findRestaurantTimestamp. -/
def claimFindRestaurantTimestamp (arr : List TEntry) (name : String)
    (ctx : Option String) : Option Nat :=
  if arr.length = 0 then none
  else
    let texts := arr.map (fun e => lowerStr e.text)
    let r := (List.range arr.length).foldl
      (bestStep (claimWindowScore texts name ctx)
        (fun i => (arr.getD i default).offset / 1000)) (0, none)
    if 2 ≤ r.1 then r.2 else none

/-- A stored video row: database id, YouTube id, title, description,
raw duration, cached transcript, and the two terminal processing
flags. -/
structure Video where
  id : Nat
  video_id : String
  title : String
  description : Option String
  duration : String
  transcript : Option String
  processed : Bool
  processing_error : Option String
deriving DecidableEq

/-- A stored restaurant row as created by the orchestrator. -/
structure Restaurant where
  id : Nat
  name : String
  address : Option String
  city : Option String
  cuisine_type : Option String
  price_range : Option String
deriving DecidableEq

/-- A stored recommendation edge between one video and one restaurant. -/
structure RecommendationEdge where
  video_id : Nat
  restaurant_id : Nat
  confidence_score : ℚ
  context : Option String
  dish_mentioned : Option String
  mentioned_at_timestamp : Option Nat
deriving DecidableEq

/-- The relational store visible to the pipeline: video rows,
restaurant rows, recommendation edges, and a fresh-id counter for
restaurant inserts. -/
structure DB where
  videos : List Video
  restaurants : List Restaurant
  recommendations : List RecommendationEdge
  nextRestaurantId : Nat
deriving DecidableEq

/-- supabaseService.getVideo: the first stored row with the given
YouTube id, if any. -/
def getVideo (db : DB) (vid : String) : Option Video :=
  db.videos.find? (fun v => v.video_id = vid)

/-- supabaseService.updateVideo: apply a field patch to every row with
the given YouTube id. -/
def updVideo (db : DB) (vid : String) (f : Video → Video) : DB :=
  { db with videos := db.videos.map (fun v => if v.video_id = vid then f v else v) }

/-- Postgres ILIKE with percent wildcards on both sides:
case-insensitive substring containment. -/
def ilikeContains (field pat : String) : Bool :=
  strContainsSub (lowerStr field) (lowerStr pat)

/-- supabaseService.findRestaurantByName: rows whose name contains the
candidate name case-insensitively, narrowed by a loose city match when
the city argument is truthy, limited to 5. -/
def findRestaurantByName (db : DB) (name : String) (city : Option String) :
    List Restaurant :=
  let base := db.restaurants.filter (fun r => ilikeContains r.name name)
  let narrowed :=
    match city with
    | some c =>
      if c = "" then base
      else base.filter (fun r =>
        match r.city with
        | some rc => ilikeContains rc c
        | none => false)
    | none => base
  narrowed.take 5

/-- supabaseService.createRestaurant: insert a row under a fresh id and
return the row. -/
def createRestaurant (db : DB) (c : Candidate) : DB × Restaurant :=
  let r : Restaurant :=
    { id := db.nextRestaurantId
      name := c.name
      address := c.address
      city := c.location
      cuisine_type := c.cuisineType
      price_range := c.priceRange }
  ({ db with restaurants := db.restaurants ++ [r]
             nextRestaurantId := db.nextRestaurantId + 1 }, r)

/-- supabaseService.createRecommendation: insert an edge row built from
the candidate's fields. -/
def addRecommendation (db : DB) (videoDbId restaurantId : Nat) (c : Candidate) : DB :=
  { db with recommendations := db.recommendations ++
      [{ video_id := videoDbId
         restaurant_id := restaurantId
         confidence_score := c.confidenceScore
         context := c.context
         dish_mentioned := c.dishMentioned
         mentioned_at_timestamp := c.mentionedAt }] }

/-- The external-call outcomes one run of the orchestrator can observe:
the combined transcript fetch, the AI extraction, the timestamped
transcript fetch, and per-candidate-index injected failures of the
restaurant lookup, the restaurant insert and the edge insert. -/
structure PipelineEnv where
  transcriptResult : Except String String
  aiResult : Except String (List Candidate)
  tsFetch : Except String (List TEntry)
  findFail : Nat → Option String
  restFail : Nat → Option String
  recFail : Nat → Option String

/-- JS truthiness of a nullable string: null/undefined and "" are falsy. -/
def jsStrFalsy : Option String → Bool
  | none => true
  | some s => s = ""

/-- The transcript-acquisition prelude of processVideoRecommendations:
reuse a truthy cached transcript; otherwise fetch (persisting a
success) or fall back to the description; a still-blank result falls
back to the description once more. Returns the possibly-updated store
and the effective transcript text. -/
def acquireTranscript (env : PipelineEnv) (db : DB) (video : Video) : DB × String :=
  let p : DB × String :=
    if jsStrFalsy video.transcript then
      match env.transcriptResult with
      | .ok t =>
        (updVideo db video.video_id (fun v => { v with transcript := some t }), t)
      | .error _ => (db, video.description.getD "")
    else (db, video.transcript.getD "")
  if trimStr p.2 = "" then (p.1, video.description.getD "") else p

/-- One iteration of the per-candidate persistence loop, with the
surrounding try/catch: a failure at the lookup, the restaurant insert
or the edge insert skips the candidate (a restaurant row created
before a failing edge insert remains). Returns the store and whether
the candidate was fully persisted. -/
def processOneCandidate (env : PipelineEnv) (i : Nat) (db : DB)
    (videoDbId : Nat) (c : Candidate) : DB × Bool :=
  if (env.findFail i).isSome then (db, false)
  else
    match findRestaurantByName db c.name c.location with
    | r :: _ =>
      if (env.recFail i).isSome then (db, false)
      else (addRecommendation db videoDbId r.id c, true)
    | [] =>
      if (env.restFail i).isSome then (db, false)
      else
        let p := createRestaurant db c
        if (env.recFail i).isSome then (p.1, false)
        else (addRecommendation p.1 videoDbId p.2.id c, true)

/-- The persistence loop over all candidates, threading the store and
counting fully persisted candidates. -/
def processAllCandidates (env : PipelineEnv) (db : DB) (videoDbId : Nat) :
    Nat → List Candidate → DB × Nat
  | _, [] => (db, 0)
  | i, c :: rest =>
    let p := processOneCandidate env i db videoDbId c
    let r := processAllCandidates env p.1 videoDbId (i + 1) rest
    (r.1, (if p.2 then 1 else 0) + r.2)

/-- The summary object returned by processVideoRecommendations. -/
structure ProcessResult where
  extracted_count : Nat
  processed_count : Nat
deriving DecidableEq

/-- processVideoRecommendations: acquire a transcript, fail fast when
it is blank, run the extractor (propagating its error), reconcile
timestamps, persist candidates with per-candidate error recovery, and
finally mark the video processed with its error cleared. Returns the
resulting store alongside the outcome. -/
def processVideoRecommendations (env : PipelineEnv) (db : DB) (video : Video) :
    DB × Except String ProcessResult :=
  let a := acquireTranscript env db video
  if trimStr a.2 = "" then
    (a.1, .error "No transcript or description available for processing")
  else
    match env.aiResult with
    | .error e => (a.1, .error e)
    | .ok cands0 =>
      let cands := enhanceRecommendationsWithTimestamps env.tsFetch cands0
      let fold := processAllCandidates env a.1 video.id 0 cands
      let db2 := updVideo fold.1 video.video_id
        (fun v => { v with processed := true, processing_error := none })
      (db2, .ok { extracted_count := cands.length, processed_count := fold.2 })

/-- The response of the single-video processing route. -/
inductive ProcessResponse where
  | notFound
  | conflict
  | success (res : ProcessResult)
  | serverError (msg : String)
deriving DecidableEq

/-- The POST /video/:videoId handler: missing video is a 404, an
already-processed video is a 400 conflict with no store write, and an
error from the pipeline marks the video failed with the error recorded
and processed set to false. -/
def handleProcessVideo (env : PipelineEnv) (db : DB) (videoId : String) :
    ProcessResponse × DB :=
  match getVideo db videoId with
  | none => (.notFound, db)
  | some v =>
    if v.processed then (.conflict, db)
    else
      match processVideoRecommendations env db v with
      | (db1, .ok r) => (.success r, db1)
      | (db1, .error e) =>
        (.serverError e,
          updVideo db1 videoId
            (fun w => { w with processing_error := some e, processed := false }))

/-- A pipeline environment in which every external call fails and the
extractor returns no candidates. -/
def env0 : PipelineEnv :=
  { transcriptResult := Except.error "no captions"
    aiResult := Except.ok []
    tsFetch := Except.error "no ts"
    findFail := fun _ => none
    restFail := fun _ => none
    recFail := fun _ => none }

/-- A stored video already marked processed. -/
def procVideo : Video :=
  { id := 1, video_id := "v1", title := "Food Tour", description := some "desc"
    duration := "PT3M", transcript := none, processed := true
    processing_error := none }

/-- A one-video store holding an already-processed video. -/
def dbOne : DB := { videos := [procVideo], restaurants := [], recommendations := [], nextRestaurantId := 0 }

/-- A validated candidate used by concrete runs. -/
def candPasta : Candidate :=
  { name := "Pasta House", location := some "Rome", address := none
    cuisineType := none, dishMentioned := some "carbonara"
    context := some "amazing carbonara", confidenceScore := (9 : ℚ)/10
    priceRange := none, mentionedAt := none }

/-- An unprocessed stored video with a cached transcript. -/
def video2 : Video :=
  { id := 2, video_id := "v2", title := "Rome Food Tour", description := some "desc"
    duration := "PT10M"
    transcript := some "I went to Pasta House in Rome, amazing carbonara!"
    processed := false, processing_error := none }

/-- A one-video store holding the unprocessed video. -/
def dbTwo : DB := { videos := [video2], restaurants := [], recommendations := [], nextRestaurantId := 0 }

/-- An environment whose extractor yields one candidate. -/
def envA : PipelineEnv :=
  { transcriptResult := Except.error "no captions"
    aiResult := Except.ok [candPasta]
    tsFetch := Except.error "no ts"
    findFail := fun _ => none
    restFail := fun _ => none
    recFail := fun _ => none }

/-- A raw extractor candidate whose confidence field is present and 0. -/
def rawZeroConf : RawRestaurant :=
  { name := some "Zero Cafe", location := none, address := none
    cuisineType := none, dishMentioned := none, context := none
    confidenceScore := some 0, priceRange := none, mentionedAt := none }

/-- A one-entry timestamped transcript mentioning a two-letter name. -/
def tsArrBo : List TEntry := [{ text := "we went to bo today", offset := 5000 }]

/-- A one-entry timestamped transcript mentioning Pasta House. -/
def tsArrPasta : List TEntry := [{ text := "Pasta House is amazing", offset := 12345 }]

/-- A one-entry timestamped transcript unrelated to any candidate. -/
def tsArrHello : List TEntry := [{ text := "hello world", offset := 3000 }]

/-- A candidate carrying an extractor-supplied mentionedAt. -/
def candZebra : Candidate :=
  { name := "Zebra Grill", location := none, address := none
    cuisineType := none, dishMentioned := none, context := none
    confidenceScore := (7 : ℚ)/10, priceRange := none, mentionedAt := some 7 }

/-- Claim C1: invoking the single-video processing operation on a video
whose stored record has processed = true returns the conflict signal
and returns the store exactly as it was: no restaurant row, no
recommendation edge, and no video field is created or mutated. -/
theorem processed_video_conflict (env : PipelineEnv) (db : DB) (vid : String)
    (v : Video) (hv : getVideo db vid = some v) (hp : v.processed = true) :
    handleProcessVideo env db vid = (ProcessResponse.conflict, db) := by
  unfold handleProcessVideo
  rw [hv]
  simp [hp]

/-- Witness for C1 at a concrete store holding a processed video. -/
theorem processed_video_conflict_holds :
    handleProcessVideo env0 dbOne "v1" = (ProcessResponse.conflict, dbOne) :=
  processed_video_conflict env0 dbOne "v1" procVideo (by decide) (by decide)

/-- Claim C9: with an unavailable (errored) or empty timestamped
transcript, timestamp reconciliation returns the original candidates
unchanged; the operation is total, so no error escapes it. -/
theorem enhance_graceful_noop (e : String) (recs : List Candidate) :
    enhanceRecommendationsWithTimestamps (Except.error e) recs = recs ∧
    enhanceRecommendationsWithTimestamps (Except.ok []) recs = recs :=
  ⟨rfl, rfl⟩

/-- Claim C10: with a non-empty timestamped transcript, the reconciler
rewrites exactly the mentionedAt field of every candidate with its own
match result, leaving every other field unchanged; in particular a
candidate whose match result is none gets mentionedAt = none even when
the extractor had supplied one. -/
theorem enhance_rewrites_mentionedAt (arr : List TEntry) (recs : List Candidate)
    (hne : arr ≠ []) :
    enhanceRecommendationsWithTimestamps (Except.ok arr) recs =
      recs.map (fun r =>
        { r with mentionedAt := findRestaurantTimestamp arr r.name r.context }) := by
  unfold enhanceRecommendationsWithTimestamps getTranscriptWithTimestamps
  simp [List.length_eq_zero, hne]

/-- Witness for C10: a candidate with an extractor-supplied mentionedAt
of 7 seconds has it replaced by none when its best window score is
below 2. -/
theorem enhance_rewrites_mentionedAt_holds :
    enhanceRecommendationsWithTimestamps (Except.ok tsArrHello) [candZebra] =
      [{ candZebra with mentionedAt := none }] := by
  rw [enhance_rewrites_mentionedAt tsArrHello [candZebra] (by decide)]
  have h : findRestaurantTimestamp tsArrHello candZebra.name candZebra.context = none := by
    decide
  simp [h]

/-- Counterexample to claim C6 as stated: at exactly 120 parsed
seconds the predicate returns true (the code rejects only strictly
below 120), while the claim requires false for every d at most 120. -/
theorem suitable_at_exactly_120 :
    parseDuration "PT2M" = 120 ∧
    isVideoSuitableForProcessing { duration := "PT2M", title := "dinner" } = true :=
  ⟨by decide, by decide⟩

/-- Claim C6 as amended: the suitability predicate returns false when
the parsed duration is strictly below 120 seconds, and returns true
when it is at least 120 seconds and the lowercased title contains none
of the six denylist substrings. -/
theorem suitable_duration_amended (v : VideoMeta) (d : Nat)
    (hd : parseDuration v.duration = d) :
    (d < 120 → isVideoSuitableForProcessing v = false) ∧
    (120 ≤ d →
      nonFoodKeywords.all (fun k => ! strContainsSub (lowerStr v.title) k) = true →
      isVideoSuitableForProcessing v = true) := by
  unfold isVideoSuitableForProcessing
  rw [hd]
  constructor
  · intro hlt
    by_cases h60 : d ≤ 60 <;> simp [h60, hlt]
  · intro h120 hkw
    have h60 : ¬ d ≤ 60 := by omega
    have hlt : ¬ d < 120 := by omega
    simp only [List.all_eq_true, Bool.not_eq_true'] at hkw
    have hany : nonFoodKeywords.any (fun k => strContainsSub (lowerStr v.title) k) = false := by
      simp only [List.any_eq_false]
      intro k hk
      simp [hkw k hk]
    simp [h60, hlt, hany]

/-- Witness for the amended C6 at a 180-second video with a clean
title. -/
theorem suitable_duration_amended_holds :
    isVideoSuitableForProcessing { duration := "PT3M", title := "food" } = true :=
  (suitable_duration_amended { duration := "PT3M", title := "food" } 180
    (by decide)).2 (by omega) (by decide)

/-- Counterexample to claim C7 as stated: a video with a missing
duration string parses to 0 and is rejected by the predicate even
though its title contains no denylist keyword, so the predicate does
not fail open. -/
theorem unknown_duration_rejected :
    parseDuration "" = 0 ∧
    nonFoodKeywords.all (fun k => ! strContainsSub (lowerStr "food tour") k) = true ∧
    isVideoSuitableForProcessing { duration := "", title := "food tour" } = false :=
  ⟨rfl, by decide, by decide⟩

/-- Claim C7 as amended: the suitability predicate fails closed on
duration; whenever the parsed duration is zero (missing or
unparseable) the predicate rejects the video regardless of title. -/
theorem zero_duration_fails_closed (v : VideoMeta)
    (h : parseDuration v.duration = 0) :
    isVideoSuitableForProcessing v = false := by
  unfold isVideoSuitableForProcessing
  simp [h]

/-- Witness for the amended C7 at an empty duration string. -/
theorem zero_duration_fails_closed_holds :
    isVideoSuitableForProcessing { duration := "", title := "food tour" } = false :=
  zero_duration_fails_closed { duration := "", title := "food tour" } rfl

/-- Counterexample to claim C5 as stated: with the primary captioning
source failed, a fallback-provider transcript of trimmed length 10 is
returned as a success, though the claim requires any result of at most
50 characters to be treated as a failure. -/
theorem fallback_short_transcript_returned :
    getVideoTranscript (Except.error "no captions")
        (Except.ok { transcript := some (Sum.inr "short text") }) =
      Except.ok "short text" ∧
    (trimStr "short text").length ≤ 50 :=
  ⟨rfl, by decide⟩

/-- Claim C5 as amended: only the primary captioning source is subject
to the 50-character usability threshold; a primary success is returned
only when its trimmed text is longer than 50 characters, while any
successful result of the secondary provider is returned as-is with no
length check. -/
theorem transcript_threshold_amended :
    (∀ (arr : List CapEntry) (fallback : Except String RapidResp) (t : String),
        getVideoTranscript (Except.ok arr) fallback = Except.ok t →
        (t = String.intercalate " " (arr.map (fun e => e.text)) ∧
            50 < (trimStr t).length) ∨
          getRapidApiTranscript fallback = Except.ok t) ∧
    (∀ (e : String) (fallback : Except String RapidResp) (t : String),
        getRapidApiTranscript fallback = Except.ok t →
        getVideoTranscript (Except.error e) fallback = Except.ok t) := by
  constructor
  · intro arr fallback t h
    unfold getVideoTranscript at h
    by_cases hlen :
        50 < (trimStr (String.intercalate " " (arr.map (fun e => e.text)))).length
    · left
      simp only [hlen, if_true] at h
      cases h
      exact ⟨rfl, hlen⟩
    · right
      simp only [hlen, if_false] at h
      cases hr : getRapidApiTranscript fallback with
      | ok t2 => rw [hr] at h; cases h; rfl
      | error e2 => rw [hr] at h; cases h
  · intro e fallback t h
    unfold getVideoTranscript
    rw [h]

/-- Witness for the amended C5: the secondary branch returns a short
fallback transcript untouched. -/
theorem transcript_threshold_amended_holds :
    getVideoTranscript (Except.error "no captions")
        (Except.ok { transcript := some (Sum.inr "hi") }) = Except.ok "hi" :=
  transcript_threshold_amended.2 "no captions"
    (Except.ok { transcript := some (Sum.inr "hi") }) "hi" rfl

/-- Counterexample to claim C2 as stated: a candidate whose confidence
field is present and equal to 0 — present and strictly below 0.6 — is
not dropped; it passes the filter (0 is falsy in the JS test) and its
confidence is defaulted to 0.8. -/
theorem zero_confidence_candidate_kept :
    rawZeroConf.confidenceScore = some 0 ∧ (0 : ℚ) < 6/10 ∧
    validateAndFormatRecommendations (some [rawZeroConf]) =
      [formatRestaurant rawZeroConf] ∧
    (formatRestaurant rawZeroConf).confidenceScore = (8 : ℚ)/10 := by
  refine ⟨rfl, by norm_num, ?_, ?_⟩
  · show (([rawZeroConf].filter keepRestaurant).map formatRestaurant) = _
    have hk : keepRestaurant rawZeroConf = true := by
      simp only [keepRestaurant, rawZeroConf, Bool.and_eq_true, Bool.or_eq_true,
        decide_eq_true_eq, and_assoc]
      exact ⟨by decide, by decide, Or.inr trivial⟩
    simp [hk]
  · simp [formatRestaurant, rawZeroConf]

/-- Claim C2 as amended: the validator keeps a candidate exactly when
its name is present with a nonempty trim and its confidence is absent,
zero, or at least 0.6 (so a present, nonzero confidence below 0.6 is
dropped, while an absent or zero confidence passes); an absent or zero
confidence is defaulted to 0.8; and every candidate in the returned
list has confidenceScore at least 0.6. -/
theorem validate_recommendations_amended :
    (∀ r : RawRestaurant, keepRestaurant r = true ↔
        ∃ n, r.name = some n ∧ n ≠ "" ∧ trimStr n ≠ "" ∧
          (r.confidenceScore = none ∨ r.confidenceScore = some 0 ∨
            ∃ q, r.confidenceScore = some q ∧ (6 : ℚ)/10 ≤ q)) ∧
    (∀ r : RawRestaurant,
        (r.confidenceScore = none ∨ r.confidenceScore = some 0) →
        (formatRestaurant r).confidenceScore = (8 : ℚ)/10) ∧
    (∀ (rs : Option (List RawRestaurant)) (c : Candidate),
        c ∈ validateAndFormatRecommendations rs →
        (6 : ℚ)/10 ≤ c.confidenceScore) := by
  refine ⟨?_, ?_, ?_⟩
  · intro r
    constructor
    · intro hkeep
      cases hn : r.name with
      | none => rw [keepRestaurant, hn] at hkeep; cases hkeep
      | some n =>
        cases hc : r.confidenceScore with
        | none =>
          rw [keepRestaurant, hn, hc] at hkeep
          simp only [Bool.and_eq_true, decide_eq_true_eq, ne_eq, and_assoc,
            Bool.and_true] at hkeep
          exact ⟨n, rfl, hkeep.1, hkeep.2, Or.inl rfl⟩
        | some q =>
          rw [keepRestaurant, hn, hc] at hkeep
          simp only [Bool.and_eq_true, Bool.or_eq_true, decide_eq_true_eq,
            ne_eq, and_assoc] at hkeep
          obtain ⟨hne, htr, hq⟩ := hkeep
          rcases hq with hq | hq
          · exact ⟨n, rfl, hne, htr, Or.inr (Or.inr ⟨q, rfl, hq⟩)⟩
          · exact ⟨n, rfl, hne, htr, Or.inr (Or.inl (by rw [hq]))⟩
    · rintro ⟨n, hn, hne, htr, hconf⟩
      rw [keepRestaurant, hn]
      rcases hconf with h | h | ⟨q, hq, hle⟩
      · rw [h]
        simp only [Bool.and_eq_true, decide_eq_true_eq, ne_eq, and_assoc,
          Bool.and_true]
        exact ⟨hne, htr⟩
      · rw [h]
        simp only [Bool.and_eq_true, Bool.or_eq_true, decide_eq_true_eq,
          ne_eq, and_assoc]
        exact ⟨hne, htr, Or.inr trivial⟩
      · rw [hq]
        simp only [Bool.and_eq_true, Bool.or_eq_true, decide_eq_true_eq,
          ne_eq, and_assoc]
        exact ⟨hne, htr, Or.inl hle⟩
  · intro r hr
    rcases hr with h | h <;> simp [formatRestaurant, h]
  · intro rs c hc
    cases rs with
    | none => simp [validateAndFormatRecommendations] at hc
    | some l =>
      simp only [validateAndFormatRecommendations, List.mem_map,
        List.mem_filter] at hc
      obtain ⟨r, ⟨_, hkeep⟩, rfl⟩ := hc
      simp only [formatRestaurant]
      cases hcs : r.confidenceScore with
      | none => norm_num
      | some q =>
        by_cases hq0 : q = 0
        · simp [hq0]; norm_num
        · simp only [hq0, if_false]
          cases hn : r.name with
          | none => rw [keepRestaurant, hn] at hkeep; cases hkeep
          | some n =>
            rw [keepRestaurant, hn, hcs] at hkeep
            simp only [Bool.and_eq_true, Bool.or_eq_true, decide_eq_true_eq] at hkeep
            rcases hkeep.2 with h | h
            · exact h
            · exact absurd h hq0

/-- Witness for the amended C2: the zero-confidence candidate's
formatted output has confidence 0.8, which is at least 0.6. -/
theorem validate_recommendations_amended_holds :
    (6 : ℚ)/10 ≤ (formatRestaurant rawZeroConf).confidenceScore :=
  validate_recommendations_amended.2.2 (some [rawZeroConf])
    (formatRestaurant rawZeroConf)
    (by
      show formatRestaurant rawZeroConf ∈
        ([rawZeroConf].filter keepRestaurant).map formatRestaurant
      have hk : keepRestaurant rawZeroConf = true := by
        simp only [keepRestaurant, rawZeroConf, Bool.and_eq_true, Bool.or_eq_true,
          decide_eq_true_eq, and_assoc]
        exact ⟨by decide, by decide, Or.inr trivial⟩
      simp [hk])

theorem bestFold_fst_le (f ts : Nat → Nat) (l : List Nat) (acc : Nat × Option Nat) :
    acc.1 ≤ (l.foldl (bestStep f ts) acc).1 := by
  induction l generalizing acc with
  | nil => exact le_refl _
  | cons j t ih =>
    simp only [List.foldl_cons]
    refine le_trans ?_ (ih (bestStep f ts acc j))
    unfold bestStep
    split
    · exact le_of_lt (by assumption)
    · exact le_refl _

theorem bestFold_mem_le (f ts : Nat → Nat) (l : List Nat) (acc : Nat × Option Nat) :
    ∀ i ∈ l, f i ≤ (l.foldl (bestStep f ts) acc).1 := by
  induction l generalizing acc with
  | nil => intro i hi; cases hi
  | cons j t ih =>
    intro i hi
    simp only [List.foldl_cons]
    rcases List.mem_cons.mp hi with h | h
    · subst h
      refine le_trans ?_ (bestFold_fst_le f ts t (bestStep f ts acc i))
      unfold bestStep
      split
      · exact le_refl _
      · omega
    · exact ih (bestStep f ts acc j) i h

theorem bestFold_result (f ts : Nat → Nat) (l : List Nat) (acc : Nat × Option Nat) :
    l.foldl (bestStep f ts) acc = acc ∨
      ∃ i ∈ l, (l.foldl (bestStep f ts) acc).1 = f i ∧
        (l.foldl (bestStep f ts) acc).2 = some (ts i) := by
  induction l generalizing acc with
  | nil => exact Or.inl rfl
  | cons j t ih =>
    simp only [List.foldl_cons]
    rcases ih (bestStep f ts acc j) with h | ⟨i, hi, h1, h2⟩
    · rw [h]
      unfold bestStep
      split
      · exact Or.inr ⟨j, List.mem_cons_self j t, rfl, rfl⟩
      · exact Or.inl rfl
    · exact Or.inr ⟨i, List.mem_cons_of_mem j hi, h1, h2⟩

/-- Counterexample to claim C8 as stated: for the restaurant name "bo"
the claim's scoring (full name weight 2, tokens weight 1) gives the
single window score 3 and fills mentionedAt = 5, but the code filters
out every search term of length at most 2, scores the window 0, and
leaves mentionedAt null. -/
theorem short_name_never_matches :
    claimFindRestaurantTimestamp tsArrBo "bo" none = some 5 ∧
    findRestaurantTimestamp tsArrBo "bo" none = none :=
  ⟨by decide, by decide⟩

/-- Claim C8 as amended: the reconciler scores each position's
5-entry window by summing, over the search-term list built from the
lowercased full name, its whitespace tokens and the context words
longer than 3 characters — discarding every term of length at most 2
and counting an occurrence of the full name with weight 3 (1 plus a
bonus 2) and any other occurring term with weight 1 — and it returns
some timestamp exactly on transcripts where some window scores at
least 2; a returned timestamp is the whole-second entry offset of a
best-scoring position. -/
theorem findRestaurantTimestamp_amended (arr : List TEntry) (name : String)
    (ctx : Option String) :
    (∀ t, findRestaurantTimestamp arr name ctx = some t →
      ∃ i, i < arr.length ∧
        t = (arr.getD i default).offset / 1000 ∧
        2 ≤ windowScore (arr.map (fun e => lowerStr e.text)) name ctx i ∧
        ∀ j, j < arr.length →
          windowScore (arr.map (fun e => lowerStr e.text)) name ctx j ≤
            windowScore (arr.map (fun e => lowerStr e.text)) name ctx i) ∧
    ((∃ i, i < arr.length ∧
        2 ≤ windowScore (arr.map (fun e => lowerStr e.text)) name ctx i) →
      ∃ t, findRestaurantTimestamp arr name ctx = some t) := by
  constructor
  · intro t ht
    unfold findRestaurantTimestamp at ht
    by_cases hn : arr.length = 0
    · simp [hn] at ht
    · simp only [hn, if_false] at ht
      by_cases hs : 2 ≤ ((List.range arr.length).foldl
          (bestStep (windowScore (arr.map (fun e => lowerStr e.text)) name ctx)
            (fun i => (arr.getD i default).offset / 1000)) (0, none)).1
      · rw [if_pos hs] at ht
        rcases bestFold_result
            (windowScore (arr.map (fun e => lowerStr e.text)) name ctx)
            (fun i => (arr.getD i default).offset / 1000)
            (List.range arr.length) (0, none) with h | ⟨i, hi, h1, h2⟩
        · rw [h] at ht; cases ht
        · rw [h2] at ht
          injection ht with ht2
          refine ⟨i, List.mem_range.mp hi, ht2.symm, ?_, ?_⟩
          · rw [← h1]; exact hs
          · intro j hj
            rw [← h1]
            exact bestFold_mem_le _ _ (List.range arr.length) (0, none) j
              (List.mem_range.mpr hj)
      · rw [if_neg hs] at ht; cases ht
  · rintro ⟨i, hi, hscore⟩
    unfold findRestaurantTimestamp
    have hn : ¬ arr.length = 0 := by omega
    simp only [hn, if_false]
    have hle := bestFold_mem_le
      (windowScore (arr.map (fun e => lowerStr e.text)) name ctx)
      (fun i => (arr.getD i default).offset / 1000)
      (List.range arr.length) (0, none) i (List.mem_range.mpr hi)
    have hs : 2 ≤ ((List.range arr.length).foldl
        (bestStep (windowScore (arr.map (fun e => lowerStr e.text)) name ctx)
          (fun i => (arr.getD i default).offset / 1000)) (0, none)).1 := by
      omega
    rw [if_pos hs]
    rcases bestFold_result
        (windowScore (arr.map (fun e => lowerStr e.text)) name ctx)
        (fun i => (arr.getD i default).offset / 1000)
        (List.range arr.length) (0, none) with h | ⟨i2, _, _, h2⟩
    · rw [h] at hs; omega
    · exact ⟨_, h2⟩

/-- Witness for the amended C8: the Pasta House transcript has a
window scoring at least 2 at index 0, so a timestamp is returned. -/
theorem findRestaurantTimestamp_amended_holds :
    ∃ t, findRestaurantTimestamp tsArrPasta "Pasta House"
      (some "amazing carbonara") = some t :=
  (findRestaurantTimestamp_amended tsArrPasta "Pasta House"
    (some "amazing carbonara")).2 ⟨0, by decide, by decide⟩

theorem processOne_videos (env : PipelineEnv) (i : Nat) (db : DB)
    (vid : Nat) (c : Candidate) :
    (processOneCandidate env i db vid c).1.videos = db.videos := by
  unfold processOneCandidate addRecommendation createRestaurant
  split
  · rfl
  · split
    · split <;> rfl
    · split
      · rfl
      · split <;> rfl

theorem processAll_videos (env : PipelineEnv) (db : DB) (vid : Nat)
    (i : Nat) (cs : List Candidate) :
    (processAllCandidates env db vid i cs).1.videos = db.videos := by
  induction cs generalizing db i with
  | nil => rfl
  | cons c rest ih =>
    unfold processAllCandidates
    rw [ih (processOneCandidate env i db vid c).1 (i + 1)]
    exact processOne_videos env i db vid c

theorem processAll_count_le (env : PipelineEnv) (db : DB) (vid : Nat)
    (i : Nat) (cs : List Candidate) :
    (processAllCandidates env db vid i cs).2 ≤ cs.length := by
  induction cs generalizing db i with
  | nil => exact le_refl _
  | cons c rest ih =>
    unfold processAllCandidates
    have h := ih (processOneCandidate env i db vid c).1 (i + 1)
    simp only [List.length_cons]
    split <;> omega

theorem enhance_length (fetch : Except String (List TEntry))
    (recs : List Candidate) :
    (enhanceRecommendationsWithTimestamps fetch recs).length = recs.length := by
  simp only [enhanceRecommendationsWithTimestamps]
  split
  · rfl
  · exact List.length_map recs _

theorem getVideo_updVideo (db : DB) (vid : String) (f : Video → Video)
    (hf : ∀ v, (f v).video_id = v.video_id) :
    getVideo (updVideo db vid f) vid = (getVideo db vid).map f := by
  show List.find? (fun v => v.video_id = vid)
      (db.videos.map (fun v => if v.video_id = vid then f v else v)) =
    (List.find? (fun v => v.video_id = vid) db.videos).map f
  induction db.videos with
  | nil => rfl
  | cons v vs ih =>
    by_cases hv : v.video_id = vid
    · have hfv : (f v).video_id = vid := by rw [hf v]; exact hv
      have h1 : (if v.video_id = vid then f v else v) = f v := if_pos hv
      rw [List.map_cons, h1,
        List.find?_cons_of_pos _ (by simpa using hfv),
        List.find?_cons_of_pos _ (by simpa using hv)]
      rfl
    · have h1 : (if v.video_id = vid then f v else v) = v := if_neg hv
      rw [List.map_cons, h1,
        List.find?_cons_of_neg _ (by simpa using hv),
        List.find?_cons_of_neg _ (by simpa using hv)]
      exact ih

/-- The terminal-flag invariant of a single video row: processed
implies no pending processing error. -/
def videoInv (v : Video) : Prop :=
  v.processed = true → v.processing_error = none

/-- The store-wide terminal-flag invariant. -/
def dbInv (db : DB) : Prop :=
  ∀ v ∈ db.videos, videoInv v

theorem dbInv_of_videos_eq (db1 db2 : DB) (h : db2.videos = db1.videos)
    (hi : dbInv db1) : dbInv db2 := by
  intro v hv
  exact hi v (h ▸ hv)

theorem updVideo_inv (db : DB) (vid : String) (f : Video → Video)
    (hf : ∀ v, videoInv v → videoInv (f v)) (hi : dbInv db) :
    dbInv (updVideo db vid f) := by
  intro v hv
  simp only [updVideo, List.mem_map] at hv
  obtain ⟨w, hw, rfl⟩ := hv
  split
  · exact hf w (hi w hw)
  · exact hi w hw

theorem fst_trim_fallback (p : DB × String) (d : String) :
    (if trimStr p.2 = "" then (p.1, d) else p).1 = p.1 := by
  split <;> rfl

theorem acquire_cases (env : PipelineEnv) (db : DB) (video : Video) :
    (acquireTranscript env db video).1 = db ∨
      ∃ t, (acquireTranscript env db video).1 =
        updVideo db video.video_id (fun v => { v with transcript := some t }) := by
  simp only [acquireTranscript]
  rw [fst_trim_fallback]
  by_cases hjs : jsStrFalsy video.transcript = true
  · rw [if_pos hjs]
    cases henv : env.transcriptResult with
    | error e => exact Or.inl rfl
    | ok t => exact Or.inr ⟨t, rfl⟩
  · rw [if_neg hjs]
    exact Or.inl rfl

theorem acquire_dbInv (env : PipelineEnv) (db : DB) (video : Video)
    (hi : dbInv db) : dbInv (acquireTranscript env db video).1 := by
  rcases acquire_cases env db video with h | ⟨t, h⟩
  · rw [h]; exact hi
  · rw [h]
    exact updVideo_inv db video.video_id _ (fun v hv => hv) hi

theorem acquire_getVideo (env : PipelineEnv) (db : DB) (video : Video)
    (w : Video) (hw : getVideo db video.video_id = some w) :
    ∃ w0, getVideo (acquireTranscript env db video).1 video.video_id = some w0 := by
  rcases acquire_cases env db video with h | ⟨t, h⟩
  · rw [h, hw]; exact ⟨w, rfl⟩
  · rw [h]
    rw [getVideo_updVideo db video.video_id
      (fun v => { v with transcript := some t }) (fun v => rfl)]
    rw [hw]
    exact ⟨_, rfl⟩

theorem getVideo_eq_of_videos_eq (db1 db2 : DB) (vid : String)
    (h : db1.videos = db2.videos) : getVideo db1 vid = getVideo db2 vid := by
  unfold getVideo
  rw [h]

theorem process_dbInv (env : PipelineEnv) (db : DB) (video : Video)
    (hi : dbInv db) : dbInv (processVideoRecommendations env db video).1 := by
  have ha := acquire_dbInv env db video hi
  simp only [processVideoRecommendations]
  split
  · exact ha
  · split
    · exact ha
    · refine updVideo_inv _ video.video_id _ (fun v _ => ?_) ?_
      · intro _; rfl
      · refine dbInv_of_videos_eq (acquireTranscript env db video).1 _ ?_ ha
        exact processAll_videos env _ video.id 0 _

/-- Claim C4: the single-video processing operation preserves the
invariant that processed = true implies processing_error = null on
every stored video row: the success path writes both flags together
(processed true, error cleared) and the failure path writes the error
together with processed = false. -/
theorem handler_preserves_flag_invariant (env : PipelineEnv) (db : DB)
    (vid : String) (hi : dbInv db) :
    dbInv (handleProcessVideo env db vid).2 := by
  cases hg : getVideo db vid with
  | none =>
    simp only [handleProcessVideo, hg]
    exact hi
  | some v =>
    by_cases hp : v.processed = true
    · simp only [handleProcessVideo, hg, hp, if_true]
      exact hi
    · simp only [handleProcessVideo, hg]
      rw [if_neg hp]
      cases hpr : processVideoRecommendations env db v with
      | mk db1 r =>
        have h := process_dbInv env db v hi
        rw [hpr] at h
        cases r with
        | ok res => exact h
        | error e =>
          show dbInv (updVideo db1 vid
            (fun w => { w with processing_error := some e, processed := false }))
          refine updVideo_inv _ vid _ (fun w _ => ?_) h
          intro hcontra
          cases hcontra

/-- Witness for C4 on a concrete store satisfying the invariant. -/
theorem handler_preserves_flag_invariant_holds :
    dbInv (handleProcessVideo envA dbTwo "v2").2 :=
  handler_preserves_flag_invariant envA dbTwo "v2"
    (by
      intro v hv
      simp only [dbTwo, video2, List.mem_singleton] at hv
      subst hv
      intro h
      cases h)

/-- Claim C3: once the transcript is non-blank and the extractor
succeeds, the per-candidate loop absorbs every resolution or
persistence failure — for every injected failure pattern the operation
still returns ok — and the video is always marked processed = true
with processing_error cleared, for any number of persisted candidates
including zero. -/
theorem process_marks_processed (env : PipelineEnv) (db : DB) (video : Video)
    (cands : List Candidate) (w : Video)
    (hai : env.aiResult = Except.ok cands)
    (htr : ¬ trimStr (acquireTranscript env db video).2 = "")
    (hw : getVideo db video.video_id = some w) :
    ∃ db1 res, processVideoRecommendations env db video = (db1, Except.ok res) ∧
      res.extracted_count = cands.length ∧
      res.processed_count ≤ cands.length ∧
      ∃ w1, getVideo db1 video.video_id = some w1 ∧
        w1.processed = true ∧ w1.processing_error = none := by
  obtain ⟨w0, hw0⟩ := acquire_getVideo env db video w hw
  simp only [processVideoRecommendations, hai]
  rw [if_neg htr]
  refine ⟨_, _, rfl, ?_, ?_, ?_⟩
  · exact enhance_length env.tsFetch cands
  · rw [← enhance_length env.tsFetch cands]
    exact processAll_count_le env _ video.id 0 _
  · rw [getVideo_updVideo
      (processAllCandidates env (acquireTranscript env db video).1 video.id 0
        (enhanceRecommendationsWithTimestamps env.tsFetch cands)).1
      video.video_id
      (fun v => { v with processed := true, processing_error := none })
      (fun v => rfl)]
    rw [getVideo_eq_of_videos_eq _ (acquireTranscript env db video).1 _
      (processAll_videos env _ video.id 0 _)]
    rw [hw0]
    exact ⟨_, rfl, rfl, rfl⟩

/-- Witness for C3 at a concrete store, video and extraction. -/
theorem process_marks_processed_holds :
    ∃ db1 res, processVideoRecommendations envA dbTwo video2 = (db1, Except.ok res) ∧
      res.extracted_count = [candPasta].length ∧
      res.processed_count ≤ [candPasta].length ∧
      ∃ w1, getVideo db1 video2.video_id = some w1 ∧
        w1.processed = true ∧ w1.processing_error = none :=
  process_marks_processed envA dbTwo video2 [candPasta] video2 rfl
    (by decide) (by decide)

end FoodieFind
